import Mathlib

/-!
Verification development for the `bevy_trail` trail renderer
(`src/main.rs`).  The core consists of:

* a per-tick buffer updater `update_trails` (timer-driven sample
  emission, count-cap eviction, age-cap eviction, mesh-handle cleanup);
* a ribbon mesh builder `create_trail_mesh` (tangent estimation,
  side-vector selection, linear width taper, vertex/normal/UV/index
  generation);
* a mesh-generation pass `generate_trail_meshes`.

Scalars that the Rust code stores as `f32` are modelled as rationals
(`ℚ`) for the buffer lifecycle (times, timestamps) and as reals (`ℝ`)
for the geometry, where normalisation introduces square roots.  The
IEEE non-finite values that `glam`'s plain `normalize` can produce on a
zero vector are modelled explicitly: `VecR.normalize` returns an
`Option VecR`, `none` standing for a NaN-contaminated result, and the
contamination propagates through the vertex computation exactly as NaN
does through IEEE arithmetic (in particular `NaN * 0 = NaN`).
The sample positions are never inspected by the updater, so the
updater's state is parametric in the position type `V`; the geometry
instantiates `V` with the real vector type `VecR`.
-/

/-- Model of `bevy_time::Timer` restricted to what the trail code uses:
a repeating, never-paused timer.  `duration` and `elapsed` are seconds
as rationals. -/
structure Timer where
  duration : ℚ
  elapsed : ℚ
  timesFinishedThisTick : ℕ
deriving DecidableEq

/-- Model of `Timer::tick(delta)` for a repeating timer: advance `elapsed`; on
crossing the duration, record how many whole intervals elapsed and keep
the remainder (Bevy computes `elapsed / duration` and
`elapsed % duration` in integer nanoseconds; over exact rationals this
is the floor quotient and remainder). -/
def Timer.tick (t : Timer) (delta : ℚ) : Timer :=
  let e := t.elapsed + delta
  if t.duration ≤ e then
    { duration := t.duration
      elapsed := e - t.duration * (⌊e / t.duration⌋ : ℤ)
      timesFinishedThisTick := (⌊e / t.duration⌋).toNat }
  else
    { duration := t.duration, elapsed := e, timesFinishedThisTick := 0 }

/-- Model of `Timer::just_finished()`: the timer completed at least one interval
during the last `tick`. -/
def Timer.justFinished (t : Timer) : Bool :=
  0 < t.timesFinishedThisTick

/-- Model of `TrailPoint { position, timestamp }`.  The position type is a
parameter `V` because the buffer code never inspects positions. -/
structure TrailPoint (V : Type) where
  position : V
  timestamp : ℚ
deriving DecidableEq

/-- The `Trail` component.  `material` and entity ids are opaque
handles, modelled as naturals; `points` is the `VecDeque` front-first. -/
structure Trail (V : Type) where
  max_points : ℕ
  emit_rate : ℚ
  width : ℚ
  material : ℕ
  timer : Timer
  points : List (TrailPoint V)
  mesh_entity : Option ℕ
deriving DecidableEq

/-- The four classes of `f32` values that matter for
`Timer::from_seconds(1.0 / emit_rate)`: a finite value (carried
exactly as a rational), the two infinities, and NaN. -/
inductive F32 where
  | finite (q : ℚ)
  | posInf
  | negInf
  | nan
deriving DecidableEq

/-- IEEE division `1.0f32 / b` for a finite operand `b`:
`1.0 / +0.0 = +inf` (rationals have no negative zero), otherwise the
exact quotient. -/
def f32DivOne (b : ℚ) : F32 :=
  if b = 0 then F32.posInf else F32.finite (1 / b)

/-- Model of `std::time::Duration::from_secs_f32`: panics (modelled as `none`)
on a negative, infinite or NaN argument, otherwise the value in
seconds. -/
def durationFromSecsF32 : F32 → Option ℚ
  | F32.finite q => if q < 0 then none else some q
  | F32.posInf => none
  | F32.negInf => none
  | F32.nan => none

/-- Model of `Timer::from_seconds(secs, TimerMode::Repeating)`; `none` models
the panic propagated from `Duration::from_secs_f32`. -/
def Timer.fromSeconds (secs : F32) : Option Timer :=
  (durationFromSecsF32 secs).map fun d =>
    { duration := d, elapsed := 0, timesFinishedThisTick := 0 }

/-- Model of `Trail::new(max_points, emit_rate, width, material)`.  The interval
is `1.0 / emit_rate`; construction panics (`none`) exactly when the
duration conversion does. -/
def Trail.new (V : Type) (max_points : ℕ) (emit_rate width : ℚ)
    (material : ℕ) : Option (Trail V) :=
  (Timer.fromSeconds (f32DivOne emit_rate)).map fun tm =>
    { max_points := max_points
      emit_rate := emit_rate
      width := width
      material := material
      timer := tm
      points := []
      mesh_entity := none }

/-- The count-cap loop of `update_trails`:
`while points.len() > max_points { points.pop_front(); }`. -/
def capLoop (cap : ℕ) : List α → List α
  | [] => []
  | x :: xs => if cap < (x :: xs).length then capLoop cap xs else x :: xs

/-- The fixed age cap: `let max_age = 5.0;`. -/
def maxAge : ℚ := 5

/-- The age-cap loop of `update_trails`:
`while let Some(front) = points.front() { if current_time - front.timestamp > max_age { pop_front } else { break } }`. -/
def ageLoop (now : ℚ) : List (TrailPoint V) → List (TrailPoint V)
  | [] => []
  | front :: rest =>
    if maxAge < now - front.timestamp then ageLoop now rest
    else front :: rest

/-- The emission-and-count-cap phase of `update_trails` for one trail:
tick the timer; if it just finished, push the new timestamped sample at
the back and run the count-cap loop.  Returns the advanced timer and
the resulting buffer. -/
def stepEmitCap (t : Trail V) (delta : ℚ) (pos : V) (now : ℚ) :
    Timer × List (TrailPoint V) :=
  let timer := t.timer.tick delta
  if timer.justFinished then
    (timer, capLoop t.max_points (t.points ++ [⟨pos, now⟩]))
  else
    (timer, t.points)

/-- One `update_trails` iteration for a single trail.  Inputs are the
frame delta, the current translation and `time.elapsed_seconds()` (the
same value is used for the new sample's timestamp and for the age
test).  Returns the updated trail and the list of entity ids despawned
this tick. -/
def updateTrail (t : Trail V) (delta : ℚ) (pos : V) (now : ℚ) :
    Trail V × List ℕ :=
  let tp := stepEmitCap t delta pos now
  let pts := ageLoop now tp.2
  if pts.isEmpty then
    match t.mesh_entity with
    | some e =>
      ({ t with timer := tp.1, points := pts, mesh_entity := none }, [e])
    | none => ({ t with timer := tp.1, points := pts }, [])
  else
    ({ t with timer := tp.1, points := pts }, [])

-- ### Helper lemmas on the eviction loops

theorem capLoop_bounded (cap : ℕ) (l : List α) :
    (capLoop cap l).length ≤ cap := by
  induction l with
  | nil => simp [capLoop]
  | cons x xs ih =>
    rw [capLoop]
    split
    · exact ih
    · rename_i hnot
      simpa using Nat.le_of_not_lt hnot

theorem capLoop_suffix (cap : ℕ) (l : List α) :
    (capLoop cap l).IsSuffix l := by
  induction l with
  | nil => simp [capLoop]
  | cons x xs ih =>
    rw [capLoop]
    split
    · exact ih.trans (List.suffix_cons x xs)
    · exact List.suffix_rfl

theorem ageLoop_suffix (now : ℚ) (l : List (TrailPoint V)) :
    (ageLoop now l).IsSuffix l := by
  induction l with
  | nil => simp [ageLoop]
  | cons x xs ih =>
    rw [ageLoop]
    split
    · exact ih.trans (List.suffix_cons x xs)
    · exact List.suffix_rfl

theorem ageLoop_length_le (now : ℚ) (l : List (TrailPoint V)) :
    (ageLoop now l).length ≤ l.length :=
  (ageLoop_suffix now l).sublist.length_le

theorem ageLoop_mem_age (now : ℚ) (l : List (TrailPoint V))
    (hsort : l.Pairwise fun a b => a.timestamp ≤ b.timestamp)
    (s : TrailPoint V) (hs : s ∈ ageLoop now l) :
    now - s.timestamp ≤ maxAge := by
  induction l with
  | nil => simp [ageLoop] at hs
  | cons x xs ih =>
    rw [ageLoop] at hs
    split at hs
    · exact ih (List.pairwise_cons.mp hsort).2 hs
    · rename_i hnot
      rcases List.mem_cons.mp hs with rfl | hmem
      · exact le_of_not_lt hnot
      · have hx := (List.pairwise_cons.mp hsort).1 s hmem
        have hnow := le_of_not_lt hnot
        linarith

theorem ageLoop_mem_of (now : ℚ) (l : List (TrailPoint V))
    (s : TrailPoint V) (hmem : s ∈ l) (hage : now - s.timestamp ≤ maxAge) :
    s ∈ ageLoop now l := by
  induction l with
  | nil => simp at hmem
  | cons x xs ih =>
    rw [ageLoop]
    split
    · rename_i hlt
      rcases List.mem_cons.mp hmem with rfl | h
      · exact absurd hlt (not_lt.mpr hage)
      · exact ih h
    · exact hmem

theorem stepEmitCap_pairwise (t : Trail V) (delta : ℚ) (pos : V) (now : ℚ)
    (hsort : t.points.Pairwise fun a b => a.timestamp ≤ b.timestamp)
    (hpast : ∀ s ∈ t.points, s.timestamp ≤ now) :
    (stepEmitCap t delta pos now).2.Pairwise
      fun a b => a.timestamp ≤ b.timestamp := by
  unfold stepEmitCap
  dsimp only
  split
  · refine List.Pairwise.sublist (capLoop_suffix _ _).sublist ?_
    rw [List.pairwise_append]
    refine ⟨hsort, List.pairwise_singleton _ _, ?_⟩
    intro a ha b hb
    rw [List.mem_singleton] at hb
    subst hb
    exact hpast a ha
  · exact hsort

theorem updateTrail_points (t : Trail V) (delta : ℚ) (pos : V) (now : ℚ) :
    (updateTrail t delta pos now).1.points =
      ageLoop now (stepEmitCap t delta pos now).2 := by
  unfold updateTrail
  dsimp only
  split
  · split <;> rfl
  · rfl

theorem stepEmitCap_fst (t : Trail V) (delta : ℚ) (pos : V) (now : ℚ) :
    (stepEmitCap t delta pos now).1 = t.timer.tick delta := by
  unfold stepEmitCap
  dsimp only
  split <;> rfl

theorem updateTrail_timer (t : Trail V) (delta : ℚ) (pos : V) (now : ℚ) :
    (updateTrail t delta pos now).1.timer = (t.timer.tick delta) := by
  unfold updateTrail
  dsimp only
  split
  · split <;> simp [stepEmitCap_fst]
  · simp [stepEmitCap_fst]

/-- C2: for every trail satisfying the buffer invariant
`points.length ≤ max_points` before the tick, the invariant still holds
after `update_trails` runs; when the timer fired and a sample was
appended, the count-cap loop re-establishes the bound unconditionally. -/
theorem updater_point_cap (t : Trail V) (delta : ℚ) (pos : V) (now : ℚ)
    (h : t.points.length ≤ t.max_points) :
    (updateTrail t delta pos now).1.points.length ≤ t.max_points := by
  rw [updateTrail_points]
  refine le_trans (ageLoop_length_le _ _) ?_
  unfold stepEmitCap
  dsimp only
  split
  · exact capLoop_bounded _ _
  · exact h

/-- Witness for C2 at a concrete trail: one stored sample, cap 1. -/
theorem updater_point_cap_witness :
    ([(⟨(), 0⟩ : TrailPoint Unit)].length ≤ 1) ∧
    (updateTrail
        (⟨1, 1, 1, 0, ⟨1, 0, 0⟩, [⟨(), 0⟩], none⟩ : Trail Unit)
        1 () 1).1.points.length ≤ 1 :=
  ⟨by decide,
   updater_point_cap ⟨1, 1, 1, 0, ⟨1, 0, 0⟩, [⟨(), 0⟩], none⟩ 1 () 1
     (by decide)⟩

/-- C3: given timestamps non-decreasing front-to-back and no sample
timestamped in the future, the age-cap phase of `update_trails` keeps
exactly the samples whose age is at most `max_age = 5.0`: a surviving
sample has age `≤ 5`, and every post-emission sample with age `≤ 5`
survives — in particular a sample of age exactly `5.0` survives, and a
front sample is evicted by this phase exactly when its age is
strictly greater than `5.0`. -/
theorem updater_age_eviction (t : Trail V) (delta : ℚ) (pos : V) (now : ℚ)
    (hsort : t.points.Pairwise fun a b => a.timestamp ≤ b.timestamp)
    (hpast : ∀ s ∈ t.points, s.timestamp ≤ now) :
    ∀ s : TrailPoint V,
      s ∈ (updateTrail t delta pos now).1.points ↔
        s ∈ (stepEmitCap t delta pos now).2 ∧ now - s.timestamp ≤ maxAge := by
  intro s
  rw [updateTrail_points]
  constructor
  · intro hs
    refine ⟨(ageLoop_suffix now _).sublist.subset hs, ?_⟩
    exact ageLoop_mem_age now _ (stepEmitCap_pairwise t delta pos now hsort hpast) s hs
  · intro ⟨hmem, hage⟩
    exact ageLoop_mem_of now _ s hmem hage

/-- Witness for C3: the spec's scenario 2 — timestamps `[0, 1, 2]`,
current time `6`; the sample at timestamp `1` has age exactly `5` and
the theorem applies. -/
theorem updater_age_eviction_witness :
    (List.Pairwise (fun a b : TrailPoint Unit => a.timestamp ≤ b.timestamp)
        [⟨(), 0⟩, ⟨(), 1⟩, ⟨(), 2⟩]) ∧
    (∀ s ∈ [(⟨(), 0⟩ : TrailPoint Unit), ⟨(), 1⟩, ⟨(), 2⟩],
        s.timestamp ≤ 6) ∧
    (∀ s : TrailPoint Unit,
      s ∈ (updateTrail
            (⟨9, 1, 1, 0, ⟨1, 0, 0⟩, [⟨(), 0⟩, ⟨(), 1⟩, ⟨(), 2⟩], none⟩ :
              Trail Unit) (1/4) () 6).1.points ↔
        s ∈ (stepEmitCap
            (⟨9, 1, 1, 0, ⟨1, 0, 0⟩, [⟨(), 0⟩, ⟨(), 1⟩, ⟨(), 2⟩], none⟩ :
              Trail Unit) (1/4) () 6).2 ∧ 6 - s.timestamp ≤ maxAge) :=
  ⟨by norm_num [List.pairwise_cons], by norm_num,
   updater_age_eviction _ (1/4) () 6 (by norm_num [List.pairwise_cons])
     (by norm_num)⟩

/-- C6: a single `update_trails` tick appends at most one sample: the
buffer after the tick is at most one longer than before, whatever the
delta (even one spanning many emission intervals — `just_finished` is a
single edge trigger, not a catch-up loop). -/
theorem updater_single_emission (t : Trail V) (delta : ℚ) (pos : V)
    (now : ℚ) :
    (updateTrail t delta pos now).1.points.length ≤ t.points.length + 1 := by
  rw [updateTrail_points]
  refine le_trans (ageLoop_length_le _ _) ?_
  unfold stepEmitCap
  dsimp only
  split
  · refine le_trans (capLoop_suffix _ _).sublist.length_le ?_
    simp
  · exact Nat.le_succ _

/-- C7: on each tick, the mesh handle is cleared (and the old mesh
entity despawned) exactly when the buffer ends the tick empty;
otherwise the handle is left unchanged and nothing is despawned. -/
theorem updater_mesh_cleanup (t : Trail V) (delta : ℚ) (pos : V)
    (now : ℚ) :
    (updateTrail t delta pos now).1.mesh_entity =
      (if (updateTrail t delta pos now).1.points.isEmpty then none
       else t.mesh_entity) ∧
    (updateTrail t delta pos now).2 =
      (if (updateTrail t delta pos now).1.points.isEmpty then
        t.mesh_entity.toList else []) := by
  have hpts := updateTrail_points t delta pos now
  unfold updateTrail at hpts ⊢
  dsimp only at hpts ⊢
  split
  · rename_i hemp
    cases hmesh : t.mesh_entity with
    | some e => simp [hmesh, hemp]
    | none => simp [hmesh, hemp]
  · rename_i hemp
    simp only [Bool.not_eq_true] at hemp
    simp [hemp]

/-- C8: `Trail::new` fails at trail-creation time exactly when
`emit_rate ≤ 0`: for such rates `1.0 / emit_rate` is infinite or
negative and `Duration::from_secs_f32` inside `Timer::from_seconds`
panics, so no trail with a degenerate emission interval is ever
constructed; for every positive rate construction succeeds. -/
theorem trail_new_rejects_nonpositive_emit_rate (V : Type) (mp : ℕ)
    (er w : ℚ) (m : ℕ) :
    (Trail.new V mp er w m).isSome = true ↔ 0 < er := by
  rcases lt_trichotomy er 0 with hlt | heq | hgt
  · simp [Trail.new, Timer.fromSeconds, f32DivOne, durationFromSecsF32,
      ne_of_lt hlt, one_div_neg.mpr hlt, asymm hlt, hlt]
  · subst heq
    simp [Trail.new, Timer.fromSeconds, f32DivOne, durationFromSecsF32]
  · simp [Trail.new, Timer.fromSeconds, f32DivOne, durationFromSecsF32,
      ne_of_gt hgt, not_lt.mpr (le_of_lt (one_div_pos.mpr hgt)), hgt,
      le_of_lt hgt]

-- ### Geometry model for `create_trail_mesh`

/-- Real 3-vector, the model of `glam::Vec3`. -/
structure VecR where
  x : ℝ
  y : ℝ
  z : ℝ

/-- The zero vector `Vec3::ZERO`. -/
def VecR.zero : VecR := ⟨0, 0, 0⟩

/-- Vector `Vec3::Y`, the world up axis used for the side vector. -/
def VecR.yAxis : VecR := ⟨0, 1, 0⟩

/-- Vector `Vec3::X`, the fallback reference axis. -/
def VecR.xAxis : VecR := ⟨1, 0, 0⟩

/-- Componentwise vector addition. -/
def VecR.add (a b : VecR) : VecR := ⟨a.x + b.x, a.y + b.y, a.z + b.z⟩

/-- Componentwise vector subtraction. -/
def VecR.sub (a b : VecR) : VecR := ⟨a.x - b.x, a.y - b.y, a.z - b.z⟩

/-- Scalar multiplication, the model of `Vec3 * f32`. -/
def VecR.smul (k : ℝ) (v : VecR) : VecR := ⟨k * v.x, k * v.y, k * v.z⟩

/-- Dot product `Vec3::dot`. -/
def VecR.dot (a b : VecR) : ℝ := a.x * b.x + a.y * b.y + a.z * b.z

/-- Cross product `Vec3::cross`. -/
def VecR.cross (a b : VecR) : VecR :=
  ⟨a.y * b.z - a.z * b.y, a.z * b.x - a.x * b.z, a.x * b.y - a.y * b.x⟩

/-- Euclidean length `Vec3::length`. -/
noncomputable def VecR.len (v : VecR) : ℝ := Real.sqrt (VecR.dot v v)

open Classical in
/-- Model of `glam`'s plain `Vec3::normalize`: division by the length.
On the zero vector the IEEE result is a NaN vector, modelled as
`none`. -/
noncomputable def VecR.normalize (v : VecR) : Option VecR :=
  if v = VecR.zero then none
  else some (VecR.smul (VecR.len v)⁻¹ v)

open Classical in
/-- Model of `Vec3::normalize_or_zero`: the degenerate-safe normalize,
collapsing the zero vector to zero instead of producing NaN. -/
noncomputable def VecR.normalizeOrZero (v : VecR) : VecR :=
  if v = VecR.zero then VecR.zero
  else VecR.smul (VecR.len v)⁻¹ v

/-- Position of sample `i` of the buffer (`points[i].position`); the
default value is irrelevant, every use is in bounds. -/
def ptPos (ps : List (TrailPoint VecR)) (i : ℕ) : VecR :=
  (ps.getD i ⟨VecR.zero, 0⟩).position

/-- The tangent (`dir`) computed by `create_trail_mesh` for sample `i`:
first sample uses the direction to the next sample, last sample the
direction from the previous one, interior samples the sum of the two
adjacent differences; all through `normalize_or_zero`. -/
noncomputable def sampleDir (ps : List (TrailPoint VecR)) (i : ℕ) : VecR :=
  if i = 0 then
    VecR.normalizeOrZero (VecR.sub (ptPos ps 1) (ptPos ps 0))
  else if i = ps.length - 1 then
    VecR.normalizeOrZero (VecR.sub (ptPos ps i) (ptPos ps (i - 1)))
  else
    VecR.normalizeOrZero
      (VecR.add (VecR.sub (ptPos ps i) (ptPos ps (i - 1)))
        (VecR.sub (ptPos ps (i + 1)) (ptPos ps i)))

/-- The side (`right`) vector computed from a tangent: cross with
`Vec3::Y` when `|dir.dot(Y)| < 0.9`, otherwise with `Vec3::X`, then
plain `normalize` (NaN — `none` — when the cross product is zero). -/
noncomputable def sideFromDir (dir : VecR) : Option VecR :=
  if |VecR.dot dir VecR.yAxis| < 9 / 10 then
    VecR.normalize (VecR.cross dir VecR.yAxis)
  else
    VecR.normalize (VecR.cross dir VecR.xAxis)

/-- The side vector of sample `i`. -/
noncomputable def sideAt (ps : List (TrailPoint VecR)) (i : ℕ) :
    Option VecR :=
  sideFromDir (sampleDir ps i)

/-- The taper progress of sample `i`:
`i as f32 / (points.len() - 1) as f32` (the subtraction is the `usize`
one). -/
noncomputable def progressAt (ps : List (TrailPoint VecR)) (i : ℕ) : ℝ :=
  (i : ℝ) / ((ps.length - 1 : ℕ) : ℝ)

/-- The left vertex of sample `i`:
`position - right * (half_width * progress)` with
`half_width = width * 0.5`; NaN-contaminated (`none`) when the side
vector is. -/
noncomputable def leftVertexAt (ps : List (TrailPoint VecR)) (width : ℝ)
    (i : ℕ) : Option VecR :=
  (sideAt ps i).map fun r =>
    VecR.sub (ptPos ps i) (VecR.smul (width * (1 / 2) * progressAt ps i) r)

/-- The right vertex of sample `i`:
`position + right * (half_width * progress)`. -/
noncomputable def rightVertexAt (ps : List (TrailPoint VecR)) (width : ℝ)
    (i : ℕ) : Option VecR :=
  (sideAt ps i).map fun r =>
    VecR.add (ptPos ps i) (VecR.smul (width * (1 / 2) * progressAt ps i) r)

/-- The `bevy` primitive topology values. -/
inductive PrimitiveTopology where
  | pointList
  | lineList
  | lineStrip
  | triangleList
  | triangleStrip
deriving DecidableEq

/-- Model of a `bevy` `Mesh` restricted to what the trail code touches:
the topology, the three optional vertex attributes and the optional
index buffer.  A `none` attribute means the attribute was never
inserted; a `none` entry inside the position list marks a
NaN-contaminated vertex. -/
structure MeshData where
  topology : PrimitiveTopology
  positions : Option (List (Option VecR))
  normals : Option (List VecR)
  uvs : Option (List (ℝ × ℝ))
  indices : Option (List ℕ)

/-- Result of `Mesh::new(PrimitiveTopology::TriangleList, default())`
with nothing inserted. -/
def emptyTriangleListMesh : MeshData :=
  { topology := PrimitiveTopology.triangleList
    positions := none
    normals := none
    uvs := none
    indices := none }

/-- Model of `create_trail_mesh(points, width)`: early return of an
empty mesh for fewer than two points, otherwise two vertices (left then
right), two `(0,1,0)` normals and two UV rows per sample in buffer
order, and six indices (`base, base+1, base+2, base+1, base+3, base+2`
with `base = i * 2`) per consecutive sample pair. -/
noncomputable def createTrailMesh (ps : List (TrailPoint VecR))
    (width : ℝ) : MeshData :=
  if ps.length < 2 then emptyTriangleListMesh
  else
    { topology := PrimitiveTopology.triangleList
      positions := some ((List.range ps.length).flatMap fun i =>
        [leftVertexAt ps width i, rightVertexAt ps width i])
      normals := some ((List.range ps.length).flatMap fun _ =>
        [VecR.yAxis, VecR.yAxis])
      uvs := some ((List.range ps.length).flatMap fun i =>
        [(0, progressAt ps i), (1, progressAt ps i)])
      indices := some ((List.range (ps.length - 1)).flatMap fun i =>
        [i * 2, i * 2 + 1, i * 2 + 2, i * 2 + 1, i * 2 + 3, i * 2 + 2]) }

-- ### Helper lemmas: flat maps of constant-size blocks over a range

theorem blockFlat_length (b : ℕ → List α) (k n : ℕ)
    (hb : ∀ i, (b i).length = k) :
    ((List.range n).flatMap b).length = k * n := by
  induction n with
  | zero => simp
  | succ n ih =>
    rw [List.range_succ, List.flatMap_append]
    simp [ih, hb, Nat.mul_succ]

theorem blockFlat_block (b : ℕ → List α) (k n i : ℕ)
    (hb : ∀ j, (b j).length = k) (h : i < n) :
    (((List.range n).flatMap b).drop (k * i)).take k = b i := by
  induction n with
  | zero => omega
  | succ n ih =>
    rw [List.range_succ, List.flatMap_append]
    rcases Nat.lt_succ_iff_lt_or_eq.mp h with h' | rfl
    · have hki : k * i ≤ ((List.range n).flatMap b).length := by
        rw [blockFlat_length b k n hb]
        exact Nat.mul_le_mul_left k (le_of_lt h')
      rw [List.drop_append_of_le_length hki]
      have hlen : k ≤ (((List.range n).flatMap b).drop (k * i)).length := by
        rw [List.length_drop, blockFlat_length b k n hb]
        have h2 : k * i + k ≤ k * n := by
          rw [← Nat.mul_succ]
          exact Nat.mul_le_mul_left k (Nat.succ_le_of_lt h')
        omega
      rw [List.take_append_of_le_length hlen]
      exact ih h'
    · have hlen : ((List.range i).flatMap b).length = k * i :=
        blockFlat_length b k i hb
      rw [← hlen, List.drop_left]
      simp [List.take_of_length_le, le_of_eq (hb i)]

theorem blockFlat_getElem (b : ℕ → List α) (k n i j : ℕ)
    (hb : ∀ m, (b m).length = k) (h : i < n) (hj : j < k) :
    ((List.range n).flatMap b)[k * i + j]? = (b i)[j]? := by
  have hblk := blockFlat_block b k n i hb h
  have h1 : ((List.range n).flatMap b)[k * i + j]? =
      (((List.range n).flatMap b).drop (k * i))[j]? :=
    (List.getElem?_drop _ _ _).symm
  rw [h1, ← hblk, List.getElem?_take]
  simp [hj]

-- ### Evaluation lemmas for the degenerate direction

theorem vecSub_self (v : VecR) : VecR.sub v v = VecR.zero := by
  simp [VecR.sub, VecR.zero]

theorem vecNormalizeOrZero_zero : VecR.normalizeOrZero VecR.zero = VecR.zero := by
  rw [VecR.normalizeOrZero, if_pos rfl]

theorem vecNormalize_zero : VecR.normalize VecR.zero = none := by
  rw [VecR.normalize, if_pos rfl]

theorem vecCross_zero_left (v : VecR) : VecR.cross VecR.zero v = VecR.zero := by
  simp [VecR.cross, VecR.zero]

theorem vecDot_zero_left (v : VecR) : VecR.dot VecR.zero v = 0 := by
  simp [VecR.dot, VecR.zero]

theorem sideFromDir_zero : sideFromDir VecR.zero = none := by
  have h09 : |VecR.dot VecR.zero VecR.yAxis| < 9 / 10 := by
    rw [vecDot_zero_left]
    norm_num
  unfold sideFromDir
  rw [if_pos h09, vecCross_zero_left, vecNormalize_zero]

/-- C4: for a buffer of `N ≥ 2` samples the builder emits exactly `2N`
vertices — the left then the right vertex of sample `i` at positions
`2i` and `2i+1`, in buffer order — and exactly `6(N-1)` indices, the
quad of consecutive samples `i` being wound `(2i, 2i+1, 2i+2)` then
`(2i+1, 2i+3, 2i+2)`, in that exact order. -/
theorem mesh_layout (ps : List (TrailPoint VecR)) (width : ℝ)
    (h : 2 ≤ ps.length) :
    (∃ verts, (createTrailMesh ps width).positions = some verts ∧
      verts.length = 2 * ps.length ∧
      ∀ i < ps.length,
        verts[2 * i]? = some (leftVertexAt ps width i) ∧
        verts[2 * i + 1]? = some (rightVertexAt ps width i)) ∧
    (∃ idx, (createTrailMesh ps width).indices = some idx ∧
      idx.length = 6 * (ps.length - 1) ∧
      ∀ i < ps.length - 1,
        (idx.drop (6 * i)).take 6 =
          [2 * i, 2 * i + 1, 2 * i + 2, 2 * i + 1, 2 * i + 3, 2 * i + 2]) := by
  have hnot : ¬ ps.length < 2 := not_lt.mpr h
  constructor
  · refine ⟨(List.range ps.length).flatMap fun i =>
      [leftVertexAt ps width i, rightVertexAt ps width i], ?_, ?_, ?_⟩
    · simp [createTrailMesh, hnot]
    · exact blockFlat_length _ 2 _ fun i => rfl
    · intro i hi
      constructor
      · have h0 := blockFlat_getElem
          (fun i => [leftVertexAt ps width i, rightVertexAt ps width i])
          2 ps.length i 0 (fun m => rfl) hi (by omega)
        simpa using h0
      · have h1 := blockFlat_getElem
          (fun i => [leftVertexAt ps width i, rightVertexAt ps width i])
          2 ps.length i 1 (fun m => rfl) hi (by omega)
        simpa using h1
  · refine ⟨(List.range (ps.length - 1)).flatMap fun i =>
      [i * 2, i * 2 + 1, i * 2 + 2, i * 2 + 1, i * 2 + 3, i * 2 + 2],
      ?_, ?_, ?_⟩
    · simp [createTrailMesh, hnot]
    · exact blockFlat_length _ 6 _ fun i => rfl
    · intro i hi
      have hb := blockFlat_block
        (fun i => [i * 2, i * 2 + 1, i * 2 + 2, i * 2 + 1, i * 2 + 3, i * 2 + 2])
        6 (ps.length - 1) i (fun m => rfl) hi
      simpa [Nat.mul_comm 2 i] using hb

/-- Concrete three-sample buffer used by the mesh witnesses. -/
def taperPoints : List (TrailPoint VecR) :=
  [⟨⟨0, 0, 0⟩, 0⟩, ⟨⟨1, 0, 0⟩, 1⟩, ⟨⟨2, 0, 0⟩, 2⟩]

/-- Witness for C4 at a concrete three-sample buffer. -/
theorem mesh_layout_witness :
    2 ≤ taperPoints.length ∧
    ∃ idx, (createTrailMesh taperPoints 1).indices = some idx ∧
      idx.length = 6 * (taperPoints.length - 1) := by
  refine ⟨by decide, ?_⟩
  obtain ⟨idx, h1, h2, h3⟩ := (mesh_layout taperPoints 1 (by decide)).2
  exact ⟨idx, h1, h2⟩

theorem leftVertexAt_formula (ps : List (TrailPoint VecR)) (width : ℝ)
    (i : ℕ) :
    leftVertexAt ps width i = (sideAt ps i).map fun r =>
      VecR.sub (ptPos ps i)
        (VecR.smul (width / 2 * ((i : ℝ) / ((ps.length - 1 : ℕ) : ℝ))) r) := by
  unfold leftVertexAt progressAt
  congr 1
  funext r
  congr 2
  ring

theorem rightVertexAt_formula (ps : List (TrailPoint VecR)) (width : ℝ)
    (i : ℕ) :
    rightVertexAt ps width i = (sideAt ps i).map fun r =>
      VecR.add (ptPos ps i)
        (VecR.smul (width / 2 * ((i : ℝ) / ((ps.length - 1 : ℕ) : ℝ))) r) := by
  unfold rightVertexAt progressAt
  congr 1
  funext r
  congr 2
  ring

/-- C5: progress of sample `i` is `i / (N - 1)` — exactly `0` at the
oldest and exactly `1` at the newest sample — the half-width applied at
sample `i` is `(width / 2) * progress`, and the vertex pair is
`left = position - side * half_width_i`,
`right = position + side * half_width_i` (propagating the side
vector's NaN-contamination marker), so the ribbon tapers linearly from
zero width at the oldest end to full width at the newest end. -/
theorem mesh_taper (ps : List (TrailPoint VecR)) (width : ℝ)
    (h : 2 ≤ ps.length) :
    progressAt ps 0 = 0 ∧
    progressAt ps (ps.length - 1) = 1 ∧
    (∀ i, progressAt ps i = (i : ℝ) / ((ps.length - 1 : ℕ) : ℝ)) ∧
    ∃ verts, (createTrailMesh ps width).positions = some verts ∧
      ∀ i < ps.length,
        verts[2 * i]? = some ((sideAt ps i).map fun r =>
          VecR.sub (ptPos ps i)
            (VecR.smul (width / 2 * ((i : ℝ) / ((ps.length - 1 : ℕ) : ℝ))) r)) ∧
        verts[2 * i + 1]? = some ((sideAt ps i).map fun r =>
          VecR.add (ptPos ps i)
            (VecR.smul (width / 2 * ((i : ℝ) / ((ps.length - 1 : ℕ) : ℝ))) r)) := by
  have hne : ((ps.length - 1 : ℕ) : ℝ) ≠ 0 := by
    have : 1 ≤ ps.length - 1 := by omega
    exact_mod_cast Nat.one_le_iff_ne_zero.mp this
  refine ⟨?_, ?_, fun i => rfl, ?_⟩
  · simp [progressAt]
  · rw [progressAt]
    exact div_self hne
  · obtain ⟨verts, hv, hlen, hget⟩ := (mesh_layout ps width h).1
    refine ⟨verts, hv, ?_⟩
    intro i hi
    obtain ⟨hL, hR⟩ := hget i hi
    rw [leftVertexAt_formula] at hL
    rw [rightVertexAt_formula] at hR
    exact ⟨hL, hR⟩

/-- Witness for C5 at a concrete three-sample buffer. -/
theorem mesh_taper_witness :
    2 ≤ taperPoints.length ∧
    progressAt taperPoints 0 = 0 ∧
    progressAt taperPoints (taperPoints.length - 1) = 1 := by
  refine ⟨by decide, ?_, ?_⟩
  · exact (mesh_taper taperPoints 1 (by decide)).1
  · exact (mesh_taper taperPoints 1 (by decide)).2.1

/-- C1 (amended): when the first two samples coincide, the tangent does
normalize to the zero vector (`normalize_or_zero` is degenerate-safe),
but the side vector is then the plain `normalize` of a zero cross
product, which is NaN (modelled `none`), and the first sample's vertex
pair inherits the non-finite coordinates — even though the taper width
there is zero, since `NaN * 0 = NaN`.  No panic occurs; the degradation
is to non-finite vertices, not to a finite zero-width contribution. -/
theorem degenerate_first_pair (ps : List (TrailPoint VecR)) (width : ℝ)
    (h : 2 ≤ ps.length) (hc : ptPos ps 0 = ptPos ps 1) :
    sampleDir ps 0 = VecR.zero ∧
    sideAt ps 0 = none ∧
    ∃ verts, (createTrailMesh ps width).positions = some verts ∧
      verts[0]? = some none ∧ verts[1]? = some none := by
  have hdir : sampleDir ps 0 = VecR.zero := by
    unfold sampleDir
    rw [if_pos rfl, hc, vecSub_self, vecNormalizeOrZero_zero]
  have hside : sideAt ps 0 = none := by
    rw [sideAt, hdir, sideFromDir_zero]
  have hnot : ¬ ps.length < 2 := not_lt.mpr h
  refine ⟨hdir, hside, (List.range ps.length).flatMap fun i =>
    [leftVertexAt ps width i, rightVertexAt ps width i],
    by simp [createTrailMesh, hnot], ?_, ?_⟩
  · have h0 := blockFlat_getElem
      (fun i => [leftVertexAt ps width i, rightVertexAt ps width i])
      2 ps.length 0 0 (fun m => rfl) (by omega) (by omega)
    simpa [leftVertexAt, hside] using h0
  · have h1 := blockFlat_getElem
      (fun i => [leftVertexAt ps width i, rightVertexAt ps width i])
      2 ps.length 0 1 (fun m => rfl) (by omega) (by omega)
    simpa [rightVertexAt, hside] using h1

/-- Coincident two-sample buffer exercising the degenerate tangent. -/
def degeneratePoints : List (TrailPoint VecR) :=
  [⟨VecR.zero, 0⟩, ⟨VecR.zero, 1⟩]

/-- C1 counterexample: on a buffer of two coincident consecutive
samples the tangent does collapse to the zero vector, but the side
vector is the plain `normalize` of a zero cross product — NaN, modelled
`none` — and all four produced vertex entries are NaN-contaminated:
the builder does not degrade to a finite zero-width contribution. -/
theorem degenerate_first_pair_counterexample :
    sampleDir degeneratePoints 0 = VecR.zero ∧
    sideAt degeneratePoints 0 = none ∧
    (createTrailMesh degeneratePoints 2).positions =
      some [none, none, none, none] := by
  have h0 : ptPos degeneratePoints 0 = VecR.zero := rfl
  have h1 : ptPos degeneratePoints 1 = VecR.zero := rfl
  have h10 : ptPos degeneratePoints (1 - 1) = VecR.zero := rfl
  have hdir0 : sampleDir degeneratePoints 0 = VecR.zero := by
    unfold sampleDir
    rw [if_pos rfl, h0, h1, vecSub_self, vecNormalizeOrZero_zero]
  have hdir1 : sampleDir degeneratePoints 1 = VecR.zero := by
    unfold sampleDir
    rw [if_neg (by decide), if_pos (by decide), h1, h10, vecSub_self,
      vecNormalizeOrZero_zero]
  have hside0 : sideAt degeneratePoints 0 = none := by
    rw [sideAt, hdir0, sideFromDir_zero]
  have hside1 : sideAt degeneratePoints 1 = none := by
    rw [sideAt, hdir1, sideFromDir_zero]
  refine ⟨hdir0, hside0, ?_⟩
  have hr : List.range degeneratePoints.length = [0, 1] := rfl
  have hnot : ¬ degeneratePoints.length < 2 := by decide
  unfold createTrailMesh
  rw [if_neg hnot]
  dsimp only
  rw [hr]
  simp [leftVertexAt, rightVertexAt, hside0, hside1]

/-- Witness for the amended C1 at the concrete coincident buffer. -/
theorem degenerate_first_pair_witness :
    (2 ≤ degeneratePoints.length ∧
      ptPos degeneratePoints 0 = ptPos degeneratePoints 1) ∧
    (sampleDir degeneratePoints 0 = VecR.zero ∧
      sideAt degeneratePoints 0 = none ∧
      ∃ verts,
        (createTrailMesh degeneratePoints 2).positions = some verts ∧
        verts[0]? = some none ∧ verts[1]? = some none) :=
  ⟨⟨by decide, rfl⟩,
   degenerate_first_pair degeneratePoints 2 (by decide) rfl⟩

/-- C10: for a buffer with fewer than two samples (including the empty
buffer) `create_trail_mesh` returns — totally, without failing — the
empty triangle-list mesh: no vertex attributes and no index buffer. -/
theorem small_buffer_empty_mesh (ps : List (TrailPoint VecR)) (width : ℝ)
    (h : ps.length < 2) :
    createTrailMesh ps width = emptyTriangleListMesh := by
  unfold createTrailMesh
  rw [if_pos h]

/-- Witness for C10 at the empty buffer. -/
theorem small_buffer_empty_mesh_witness :
    (([] : List (TrailPoint VecR)).length < 2) ∧
    createTrailMesh [] 1 = emptyTriangleListMesh :=
  ⟨by decide, small_buffer_empty_mesh [] 1 (by decide)⟩

/-- Model of one `generate_trail_meshes` iteration for a single trail:
skip trails with fewer than two points; otherwise build the mesh from
the buffer and the trail's width, despawn the old mesh entity if any,
spawn a fresh entity and store its id.  Returns the new trail state,
the despawned entity ids and the mesh added to the mesh store. -/
noncomputable def generateTrailMesh (t : Trail VecR) (newEntity : ℕ) :
    Trail VecR × List ℕ × Option MeshData :=
  if t.points.length < 2 then (t, [], none)
  else
    ({ t with mesh_entity := some newEntity },
      t.mesh_entity.toList,
      some (createTrailMesh t.points (t.width : ℝ)))

/-- C9: the mesh-generation pass touches only the trail's
`mesh_entity`: the sample buffer, `max_points`, `emit_rate`, `width`,
`material` and the emission timer are unchanged; and with fewer than
two samples it changes nothing at all — no despawn, no mesh built, and
the existing mesh entity is left as-is. -/
theorem generate_pass_frame_effect (t : Trail VecR) (newEntity : ℕ) :
    (generateTrailMesh t newEntity).1.points = t.points ∧
    (generateTrailMesh t newEntity).1.max_points = t.max_points ∧
    (generateTrailMesh t newEntity).1.emit_rate = t.emit_rate ∧
    (generateTrailMesh t newEntity).1.width = t.width ∧
    (generateTrailMesh t newEntity).1.material = t.material ∧
    (generateTrailMesh t newEntity).1.timer = t.timer ∧
    (generateTrailMesh t newEntity).1.mesh_entity =
      (if t.points.length < 2 then t.mesh_entity else some newEntity) ∧
    (generateTrailMesh t newEntity).2.1 =
      (if t.points.length < 2 then [] else t.mesh_entity.toList) ∧
    (generateTrailMesh t newEntity).2.2 =
      (if t.points.length < 2 then none
       else some (createTrailMesh t.points (t.width : ℝ))) := by
  unfold generateTrailMesh
  split <;> rename_i hsplit <;> simp [hsplit]
